import Mathlib

/-!
Verification of the schema-drift detector (`migration-check`).

This file shallowly embeds the core of `src/main.rs`:

* the dependency-identifier extraction (`calc_dep_types`),
* the skip-annotation test (`should_skip_field`),
* the RPC encoding validator (`check_rpc_field`),
* the fingerprint construction for structs and enums
  (`inner_visit_item_struct`, `inner_visit_item_enum`),
* the reachability closure (`collect_fingerprints`, `construct_finger_print`),
* the dependency-chain search (`recurisve_find_type`, `try_find_type_chain`),
* the diff/report engine (`report_and_dump`).

Modelling conventions:

* Parsed syntax (fields, attributes, types) is modelled by the structures
  below; the `text` components hold the token-stream renderings that
  `quote::quote! {...}.to_string()` would produce (tokens separated by
  single spaces), since the Rust code works on those rendered strings.
* The SHA-256 digest is kept abstract: fingerprint texts are built exactly
  as the source builds them, and digests are `hash text` for an arbitrary
  `hash : String → String`.  Claims that a digest is unchanged are proved
  for every `hash`; claims that a digest changes are proved for every
  injective (collision-free) `hash`, which is the standing assumption the
  specification itself makes about the cryptographic digest.
* The two recursive graph traversals in the source have no structural
  termination argument (one is cycle-guarded by a visited set, the other
  is not guarded at all), so both are embedded with an explicit fuel
  parameter; the theorems about the cycle-guarded traversal show that any
  fuel past an explicit bound yields the same (complete) answer.
* Process effects are made explicit: `exit(1)` and the baseline write
  become fields of `ReportResult`; a Rust panic (a failing `unwrap`)
  becomes an `Option`/dedicated constructor.
-/

namespace MigrationCheck

/-! ## String helpers mirroring the Rust string operations -/

/-- Splitting of a character list at every occurrence of `c`, mirroring
Rust's `str::split(c)` (and `String.splitOn` for a one-character
separator).  The result is always nonempty. -/
def splitChar (c : Char) : List Char → List (List Char)
  | [] => [[]]
  | x :: xs =>
    match splitChar c xs with
    | [] => [[]]
    | h :: t => if x = c then [] :: h :: t else (x :: h) :: t

/-- Text after the last `':'` of a string: Rust's
`s.split(":").last().unwrap_or_default()`. -/
def lastColonSeg (s : String) : String :=
  String.mk ((splitChar ':' s.data).getLastD [])

/-- Containment of `pat` as a contiguous sublist, mirroring Rust's
`str::contains` for the substring test on attribute token strings. -/
def listContainsSub (pat : List Char) : List Char → Bool
  | [] => pat.isEmpty
  | c :: rest => pat.isPrefixOf (c :: rest) || listContainsSub pat rest

/-- Substring test on strings: Rust's `s.contains(pat)`. -/
def strContains (s pat : String) : Bool :=
  listContainsSub pat.data s.data

/-- Newline-freeness of a string, used to state when the line-structure of
a fingerprint text is recoverable from the concatenated text. -/
def nlFree (s : String) : Bool :=
  s.data.all (fun ch => ch ≠ '\n')

/-- Character-wise uppercasing, embedding Rust's `str::to_uppercase` (the
validator only applies it to the ASCII names `u8`, …, `u128`, where
per-character uppercasing is exact). -/
def asciiUpper (s : String) : String :=
  String.mk (s.data.map Char.toUpper)

/-! ## Data model of the parsed declarations

The external parser (syn) is out of scope; these structures record exactly
the information the analysed code reads from it. -/

/-- Top-level token tree of a type path's token stream: the source only
distinguishes identifier tokens (collected as dependency names) from
everything else (punctuation, literals and bracketed groups, all skipped,
including any identifiers nested inside a group). -/
inductive Tok where
  | ident (s : String)
  | other
deriving DecidableEq

/-- Rust type expression as the analysed code sees it: a `Type::Path` with
its top-level token trees, or any other type kind.  `text` is the rendered
token stream of the type (as produced by `quote!`). -/
inductive RType where
  | path (toks : List Tok) (text : String)
  | notPath (text : String)
deriving DecidableEq

/-- Rendered token stream of a type. -/
def RType.text : RType → String
  | .path _ t => t
  | .notPath t => t

/-- Attribute on a field: the path segments (`attr.path`) and the rendered
remaining tokens (`attr.tokens.to_string()`, e.g. `(skip)` or
`(as = "U64Hex")`). -/
structure Attr where
  path : List String
  tokens : String
deriving DecidableEq

/-- Field of a struct or of an enum variant: optional name (tuple fields
have none), rendered visibility tokens (with trailing space when
nonempty), type, and attributes. -/
structure Field where
  ident : Option String
  vis : String
  ty : RType
  attrs : List Attr
deriving DecidableEq

/-- Field list of a struct, mirroring `syn::Fields`. -/
inductive StructFields where
  | named (fs : List Field)
  | unnamed (fs : List Field)
  | unit
deriving DecidableEq

/-- Whether a `StructFields` is the named-fields form. -/
def StructFields.isNamed : StructFields → Bool
  | .named _ => true
  | _ => false

/-- Enum variant: name and payload fields (empty for unit variants). -/
structure Variant where
  ident : String
  fields : List Field
deriving DecidableEq

/-- Struct declaration. -/
structure ItemStruct where
  ident : String
  fields : StructFields
deriving DecidableEq

/-- Enum declaration. -/
structure ItemEnum where
  ident : String
  variants : List Variant
deriving DecidableEq

/-! ## Dependency extraction and field predicates -/

/-- Embedding of `SynVisitor::calc_dep_types`: for a path type, every
top-level identifier token of its token stream, in order; for any other
type kind, nothing. -/
def calc_dep_types (ty : RType) : List String :=
  match ty with
  | .path toks _ => toks.filterMap (fun t => match t with
      | .ident s => some s
      | .other => none)
  | .notPath _ => []

/-- Embedding of `SynVisitor::should_skip_field`: some attribute whose last
path segment is `serde` and whose token string contains `skip`. -/
def should_skip_field (f : Field) : Bool :=
  f.attrs.any (fun attr =>
    (attr.path.getLastD "") = "serde" && strContains attr.tokens "skip")

/-- Rendering of an attribute inside a field's token stream, as
`quote!` prints it (`# [path tokens] `). -/
def attrRender (a : Attr) : String :=
  "# [" ++ String.intercalate " :: " a.path ++
    (if a.tokens = "" then "" else " " ++ a.tokens) ++ "] "

/-- Rendering of a field's attribute list. -/
def attrsRender (attrs : List Attr) : String :=
  String.join (attrs.map attrRender)

/-- Rendered token stream of `quote::quote! { #field.ty }`: the tokens of
the whole field (attributes, visibility, name and colon when named, type)
followed by the literal tokens `. ty`.  The `#field.ty` interpolation in
the source interpolates the *field* and then appends `. ty` verbatim. -/
def fieldTokenString (f : Field) : String :=
  attrsRender f.attrs ++ f.vis ++
    (match f.ident with
      | some n => n ++ " : "
      | none => "") ++
    f.ty.text ++ " . ty"

/-- Per-field text segment entering a struct fingerprint: the part of the
rendered field after the last colon (the source's
`field_type.split(":").last().unwrap_or_default()`). -/
def structFieldSeg (f : Field) : String :=
  lastColonSeg (fieldTokenString f)

/-- Fingerprint line for a named struct field (`format!("field: {}\n", ...)`). -/
def structFieldLine (f : Field) : String :=
  "field: " ++ structFieldSeg f ++ "\n"

/-- Fingerprint line for an enum variant payload field
(`format!("field:{}\n", ...)`, no colon split). -/
def enumFieldLine (f : Field) : String :=
  "field:" ++ fieldTokenString f ++ "\n"

/-! ## RPC encoding validator -/

/-- Numeric type names the validator cares about (the disjunction tested
in `check_rpc_field`). -/
def isUIntName (s : String) : Bool :=
  s == "u8" || s == "u16" || s == "u32" || s == "u64" || s == "u128"

/-- Outcome of `check_rpc_field` on one field.  The Rust function either
returns early without touching any state (`tooMany`, `notNumber`), panics
on a failing `unwrap` (`panicEmptyDeps` from `dep_types.last().unwrap()`,
`panicNoIdent` from `field.ident.as_ref().unwrap()` while formatting the
diagnostic), passes (`ok`), or emits a diagnostic and sets the error flag
(`missing expected`). -/
inductive RpcCheckResult where
  | tooMany
  | panicEmptyDeps
  | notNumber
  | ok
  | missing (expected : String)
  | panicNoIdent (expected : String)
deriving DecidableEq

/-- Whether the validator actually checked the field, i.e. reached the
annotation comparison (so that a diagnostic/error flag can result). -/
def RpcCheckResult.checked : RpcCheckResult → Bool
  | .ok => true
  | .missing _ => true
  | .panicNoIdent _ => true
  | _ => false

/-- Whether the outcome sets the process-wide error flag. -/
def RpcCheckResult.isError : RpcCheckResult → Bool
  | .missing _ => true
  | _ => false

/-- Whether the outcome is a panic (process abort). -/
def RpcCheckResult.isPanic : RpcCheckResult → Bool
  | .panicEmptyDeps => true
  | .panicNoIdent _ => true
  | _ => false

/-- Embedding of `SynVisitor::check_rpc_field` (the struct/enum name and
current file only feed the diagnostic message and are omitted). -/
def check_rpc_field (f : Field) : RpcCheckResult :=
  let dep_types := calc_dep_types f.ty
  if 2 < dep_types.length then .tooMany
  else
    match dep_types.getLast? with
    | none => .panicEmptyDeps
    | some last =>
      if !isUIntName last then .notNumber
      else
        let is_option := dep_types.length = 2 ∧ dep_types[0]? = some "Option"
        let serde_attrs := f.attrs.filter (fun attr => attr.path = ["serde_as"])
        let expected_hex := asciiUpper last ++ "Hex"
        let expected_serde_as_value :=
          if is_option then "Option<" ++ expected_hex ++ ">" else expected_hex
        if serde_attrs.any (fun attr =>
            match (attr.tokens.splitOn "=")[1]? with
            | some attr_value => strContains attr_value expected_serde_as_value
            | none => false) then .ok
        else
          match f.ident with
          | some _ => .missing expected_serde_as_value
          | none => .panicNoIdent expected_serde_as_value

/-! ## Fingerprint construction

The per-field loop in `inner_visit_item_struct` (and the per-variant loop
in `inner_visit_item_enum`) branches on the loop-invariant `self.in_rpc`
at the top of each iteration; the two resulting behaviours are embedded as
two loops (a pure fingerprint/dependency accumulation, and an RPC scan
that can panic). -/

/-- Fingerprint text and dependency list contributed by a struct's named
fields outside the wire boundary: non-skipped fields in declared order. -/
def struct_fields_fingerprint : List Field → String × List String
  | [] => ("", [])
  | f :: fs =>
    let rest := struct_fields_fingerprint fs
    if should_skip_field f then rest
    else (structFieldLine f ++ rest.1, calc_dep_types f.ty ++ rest.2)

/-- RPC scan of a field list: `none` models a panic inside
`check_rpc_field`; otherwise the accumulated error flag. -/
def rpc_check_fields : List Field → Option Bool
  | [] => some false
  | f :: fs =>
    if should_skip_field f then rpc_check_fields fs
    else
      let r := check_rpc_field f
      if r.isPanic then none
      else (rpc_check_fields fs).map (fun err => r.isError || err)

/-- Fingerprint text and dependency list contributed by one variant's
payload fields outside the wire boundary. -/
def variant_fields_fingerprint : List Field → String × List String
  | [] => ("", [])
  | f :: fs =>
    let rest := variant_fields_fingerprint fs
    if should_skip_field f then rest
    else (enumFieldLine f ++ rest.1, calc_dep_types f.ty ++ rest.2)

/-- Fingerprint text and dependency list of an enum's variant list outside
the wire boundary: a `variant:` line per variant, then its payload lines. -/
def enum_variants_fingerprint : List Variant → String × List String
  | [] => ("", [])
  | v :: vs =>
    let cur := variant_fields_fingerprint v.fields
    let rest := enum_variants_fingerprint vs
    ("variant:" ++ v.ident ++ "\n" ++ cur.1 ++ rest.1, cur.2 ++ rest.2)

/-- RPC scan of an enum's variants. -/
def rpc_check_variants : List Variant → Option Bool
  | [] => some false
  | v :: vs => do
    let e₁ ← rpc_check_fields v.fields
    let e₂ ← rpc_check_variants vs
    some (e₁ || e₂)

/-- Canonical fingerprint text of a struct declaration outside the wire
boundary: the `struct_name:` line, then one line per non-skipped named
field; tuple and unit structs contribute the name line only. -/
def structFingerprintText (name : String) (flds : StructFields) : String :=
  "struct_name:" ++ name ++ "\n" ++
    (match flds with
      | .named fs => (struct_fields_fingerprint fs).1
      | _ => "")

/-- Dependency identifiers recorded for a struct declaration: only named
fields contribute. -/
def structDeps (flds : StructFields) : List String :=
  match flds with
  | .named fs => (struct_fields_fingerprint fs).2
  | _ => []

/-- Canonical fingerprint text of an enum declaration outside the wire
boundary. -/
def enumFingerprintText (name : String) (vs : List Variant) : String :=
  "enum_name:" ++ name ++ "\n" ++ (enum_variants_fingerprint vs).1

/-- Dependency identifiers recorded for an enum declaration. -/
def enumDeps (vs : List Variant) : List String :=
  (enum_variants_fingerprint vs).2

/-! ## Visitor state and declaration visits -/

/-- State of `SynVisitor` (the `dir` and `current_file` fields only feed
messages and file traversal and are omitted).  `type_fingerprint` and
`type_deps` model the two hash maps as association lists with unique keys,
read via `List.lookup`. -/
structure VisitorState where
  types : List String
  type_fingerprint : List (String × String)
  type_deps : List (String × List String)
  store_types : List String
  in_rpc : Bool
  has_error : Bool
deriving DecidableEq

/-- Fresh visitor (`SynVisitor::new`). -/
def initialState : VisitorState :=
  { types := [], type_fingerprint := [], type_deps := [],
    store_types := [], in_rpc := false, has_error := false }

/-- Insertion into a hash map modelled as an association list: the entry
for the key is replaced. -/
def hmInsert (k : String) (v : String) (m : List (String × String)) :
    List (String × String) :=
  (k, v) :: m.filter (fun p => p.1 ≠ k)

/-- Consecutive deduplication, mirroring Rust's `Vec::dedup`. -/
def dedupConsec : List String → List String
  | [] => []
  | [a] => [a]
  | a :: b :: rest =>
    if a = b then dedupConsec (b :: rest) else a :: dedupConsec (b :: rest)

/-- Ordered insertion for the comparison sort below. -/
def insertSorted (a : String) : List String → List String
  | [] => [a]
  | b :: rest => if a ≤ b then a :: b :: rest else b :: insertSorted a rest

/-- Comparison sort embedding Rust's `Vec::sort` (insertion sort; on
strings any two equal elements are indistinguishable, so this computes
the same ordered list). -/
def sortStrings : List String → List String
  | [] => []
  | a :: rest => insertSorted a (sortStrings rest)

/-- Rust's `deps.sort(); deps.dedup()` on the freshly extracted dependency
list (consecutive deduplication after sorting removes all duplicates). -/
def sort_dedup (l : List String) : List String :=
  dedupConsec (sortStrings l)

/-- Embedding of `SynVisitor::add_type_deps`: nothing happens for an empty
list; otherwise the sorted, deduplicated list is appended to the existing
entry (dependencies are unioned, never reset). -/
def add_type_deps (m : List (String × List String)) (type_name : String)
    (dep_types : List String) : List (String × List String) :=
  if dep_types.isEmpty then m
  else
    (type_name, ((m.lookup type_name).getD []) ++ sort_dedup dep_types) ::
      m.filter (fun p => p.1 ≠ type_name)

/-- Embedding of `SynVisitor::inner_visit_item_struct`, parameterised by
the digest function.  `none` models a panic inside the RPC check.  Outside
the wire boundary the fingerprint (name line plus named-field lines) is
hashed and stored and the dependency edges are recorded; inside it, only
the error flag can change. -/
def inner_visit_item_struct (hash : String → String) (st : VisitorState)
    (item : ItemStruct) : Option VisitorState :=
  let struct_name := item.ident
  let st₁ := { st with types := st.types ++ [struct_name] }
  if st.in_rpc then
    match item.fields with
    | .named fs =>
      (rpc_check_fields fs).map (fun err =>
        { st₁ with has_error := st₁.has_error || err })
    | _ => some st₁
  else
    some { st₁ with
      type_fingerprint :=
        hmInsert struct_name (hash (structFingerprintText struct_name item.fields))
          st₁.type_fingerprint,
      type_deps := add_type_deps st₁.type_deps struct_name (structDeps item.fields) }

/-- Embedding of `SynVisitor::inner_visit_item_enum`.  Outside the wire
boundary, an enum named `KeyValue` additionally installs its raw
dependency list (in extraction order, duplicates kept) as the root set. -/
def inner_visit_item_enum (hash : String → String) (st : VisitorState)
    (item : ItemEnum) : Option VisitorState :=
  let enum_name := item.ident
  let st₁ := { st with types := st.types ++ [enum_name] }
  if st.in_rpc then
    (rpc_check_variants item.variants).map (fun err =>
      { st₁ with has_error := st₁.has_error || err })
  else
    let dep_types := enumDeps item.variants
    some { st₁ with
      type_fingerprint :=
        hmInsert enum_name (hash (enumFingerprintText enum_name item.variants))
          st₁.type_fingerprint,
      type_deps := add_type_deps st₁.type_deps enum_name dep_types,
      store_types := if enum_name = "KeyValue" then dep_types else st₁.store_types }

/-! ## Closure computation -/

/-- Dependency edges of a type name (`self.type_deps.get(type_name)`,
with a missing entry contributing no edges). -/
def depsOf (m : List (String × List String)) (n : String) : List String :=
  (m.lookup n).getD []

/-- Insertion into a `BTreeMap` modelled as a sorted association list. -/
def btInsert (k v : String) : List (String × String) → List (String × String)
  | [] => [(k, v)]
  | (k', v') :: rest =>
    if k < k' then (k, v) :: (k', v') :: rest
    else if k = k' then (k, v) :: rest
    else (k', v') :: btInsert k v rest

/-- Embedding of `SynVisitor::collect_fingerprints`, threading the pair
(visited set, collected fingerprints).  The Rust recursion is guarded by
the visited set and terminates because the name universe is finite; the
embedding makes that explicit with a fuel parameter (`fuel = 0` returns
the accumulator unchanged, a case that enough fuel never reaches). -/
def collect_fingerprints (st : VisitorState) :
    Nat → String → List String × List (String × String) →
      List String × List (String × String)
  | 0, _, acc => acc
  | fuel + 1, type_name, (visited, fingerprints) =>
    if type_name ∈ visited then (visited, fingerprints)
    else
      let fingerprints :=
        match st.type_fingerprint.lookup type_name with
        | some finger => btInsert type_name finger fingerprints
        | none => fingerprints
      let visited := type_name :: visited
      (depsOf st.type_deps type_name).foldl
        (fun acc dep => collect_fingerprints st fuel dep acc)
        (visited, fingerprints)

/-- Embedding of `SynVisitor::construct_finger_print`: closure of the root
set under dependency edges, keeping names that have a fingerprint. -/
def construct_finger_print (st : VisitorState) (fuel : Nat) :
    List (String × String) :=
  (st.store_types.foldl
    (fun acc type_name => collect_fingerprints st fuel type_name acc)
    ([], [])).2

/-! ## Dependency-chain search -/

/-- Embedding of `SynVisitor::recurisve_find_type` (name kept from the
source).  The Rust recursion has no visited-set guard, so it need not
terminate on cyclic graphs; the fuel parameter makes the embedding total
while preserving every answer the source produces when it does return. -/
def recurisve_find_type (D : String → List String) :
    Nat → String → String → List String → List (List String) →
      List (List String)
  | 0, _, _, _, result => result
  | fuel + 1, target_type, type_name, current_chain, result =>
    if target_type = type_name then result ++ [current_chain ++ [type_name]]
    else
      (D type_name).foldl
        (fun res dep =>
          recurisve_find_type D fuel target_type dep
            (current_chain ++ [type_name]) res)
        result

/-- Embedding of `SynVisitor::try_find_type_chain`: chains from every root
in the store types to the target, rendered with `" -> "`. -/
def try_find_type_chain (st : VisitorState) (fuel : Nat)
    (target_type : String) : List String :=
  (st.store_types.foldl
    (fun result type_name =>
      recurisve_find_type (depsOf st.type_deps) fuel target_type type_name
        [] result)
    []).map (fun chain => String.intercalate " -> " chain)

/-! ## Report and persistence -/

/-- Observable outcome of `report_and_dump`: the process exit code, the
baseline written to the output file (`none` when the file is left
untouched), and the drift diagnostics, each carrying the type name, old
digest, new digest and the rendered dependency chains. -/
structure ReportResult where
  exit_code : Nat
  written : Option (List (String × String))
  violations : List (String × String × String × List String)
deriving DecidableEq

/-- Embedding of `SynVisitor::report_and_dump`.  The baseline file read is
externalised into the `old_finger` argument (a missing file is the empty
list).  The RPC error flag exits first; otherwise, unless updating, every
old entry whose name still has a new fingerprint is compared, mismatches
are reported with their chains and cause exit 1 without writing; with no
mismatch the new closure map is written. -/
def report_and_dump (st : VisitorState) (old_finger : List (String × String))
    (update : Bool) (fuel : Nat) : ReportResult :=
  if st.has_error then { exit_code := 1, written := none, violations := [] }
  else
    let new_finger := construct_finger_print st fuel
    let violations :=
      if update then []
      else old_finger.filterMap (fun p =>
        match new_finger.lookup p.1 with
        | some newf =>
          if p.2 ≠ newf then
            some (p.1, p.2, newf, try_find_type_chain st fuel p.1)
          else none
        | none => none)
    if violations.isEmpty then
      { exit_code := 0, written := some new_finger, violations := [] }
    else { exit_code := 1, written := none, violations := violations }

/-! ## Specification-side notions used to state the theorems -/

/-- Reachability along dependency edges: `Reaches D a b` holds when `b`
can be reached from `a` by following zero or more dependency edges. -/
inductive Reaches (D : String → List String) : String → String → Prop
  | refl (a : String) : Reaches D a a
  | tail {a b c : String} : Reaches D a b → c ∈ D b → Reaches D a c

/-- Dependency path to `target`: `DPath D target a p` holds when `p` is a
nonempty list of type names starting at `a`, ending at `target`, whose
consecutive entries are dependency edges, and which reaches `target` for
the first time at its end (the chain search stops at the target). -/
inductive DPath (D : String → List String) (target : String) :
    String → List String → Prop
  | found : DPath D target target [target]
  | step {a b : String} {p : List String} :
      a ≠ target → b ∈ D a → DPath D target b p →
      DPath D target a (a :: p)

/-- Visited-set component of `collect_fingerprints`, isolated so that the
graph reasoning can ignore the fingerprint accumulator. -/
def dfs (D : String → List String) : Nat → String → List String → List String
  | 0, _, visited => visited
  | fuel + 1, n, visited =>
    if n ∈ visited then visited
    else (D n).foldl (fun v d => dfs D fuel d v) (n :: visited)

/-- Key list of a fingerprint map. -/
def keysOf (m : List (String × String)) : List String :=
  m.map Prod.fst

/-- All names occurring as dependency-edge targets.  Every name the
closure recursion is ever called on below the top level belongs to this
list. -/
def depTargets (m : List (String × List String)) : List String :=
  (m.map Prod.snd).flatten

/-- Fuel sufficient for `collect_fingerprints` on a visitor state: the
recursion depth is bounded by the number of distinct dependency targets
plus the root itself, since every level of recursion permanently marks a
fresh name as visited. -/
def closureFuel (st : VisitorState) : Nat :=
  (depTargets st.type_deps).length + 2

/-- Number of names of `V` not yet in the visited list, the measure that
shrinks as the closure traversal marks names visited. -/
def unvisitedCount (V vis : List String) : Nat :=
  (V.toFinset \ vis.toFinset).card

/-! ## Concrete inputs used by the witnesses and counterexamples

They realise the specification's own running scenario: a store marker
`enum KeyValue { Key(Account) }` whose payload references
`struct Account { balance: u32 }`. -/

/-- Type expression `u32`. -/
def u32ty : RType := .path [.ident "u32"] "u32"

/-- Type expression `u64`. -/
def u64ty : RType := .path [.ident "u64"] "u64"

/-- Type expression `Account`. -/
def accountTy : RType := .path [.ident "Account"] "Account"

/-- Declaration `struct Account { balance: u32 }`. -/
def accountStruct : ItemStruct :=
  ⟨"Account", .named [⟨some "balance", "", u32ty, []⟩]⟩

/-- Declaration `enum KeyValue { Key(Account) }`: the store marker whose
variant payload references `Account`. -/
def keyValueEnum : ItemEnum :=
  ⟨"KeyValue", [⟨"Key", [⟨none, "", accountTy, []⟩]⟩]⟩

/-- Visitor state after scanning the scenario declarations outside the
wire boundary, with the identity digest (injective, hence an admissible
stand-in for SHA-256 in concrete runs). -/
def scenarioState : VisitorState :=
  ((inner_visit_item_struct id initialState accountStruct).bind
    (fun st => inner_visit_item_enum id st keyValueEnum)).getD initialState

/-- Wire-boundary field `v: Vec<u64>` with no attributes. -/
def vecField : Field :=
  ⟨some "v", "", .path [.ident "Vec", .other, .ident "u64", .other] "Vec < u64 >", []⟩

/-- Wire-boundary field `pair: (u8, u8)`: a tuple type, which yields zero
dependency identifiers. -/
def tupleField : Field :=
  ⟨some "pair", "", .notPath "( u8 , u8 )", []⟩

/-- Field `cache: u32` marked `#[serde(skip)]`. -/
def skipField : Field :=
  ⟨some "cache", "", u32ty, [⟨["serde"], "(skip)"⟩]⟩

/-- Field `a: u32`. -/
def fieldA : Field := ⟨some "a", "", u32ty, []⟩

/-- Field `b: u32` (same type text as `fieldA`, different name). -/
def fieldB : Field := ⟨some "b", "", u32ty, []⟩

/-- Field `c: u64`. -/
def fieldC : Field := ⟨some "c", "", u64ty, []⟩

/-- Non-skipped fields of a struct field list, in declared order. -/
def structSegs (fs : List Field) : List String :=
  (fs.filter (fun f => !should_skip_field f)).map structFieldSeg

/-- Concatenation of the struct fingerprint lines of a segment list. -/
def segsText : List String → String
  | [] => ""
  | s :: rest => ("field: " ++ s ++ "\n") ++ segsText rest

/-! ## String lemmas -/

theorem splitChar_ne_nil (c : Char) (l : List Char) : splitChar c l ≠ [] := by
  cases l with
  | nil => simp [splitChar]
  | cons x xs =>
    rcases h : splitChar c xs with _ | ⟨hd, tl⟩
    · simp [splitChar, h]
    · by_cases hx : x = c <;> simp [splitChar, h, hx]

theorem splitChar_append (c : Char) (a b : List Char) :
    splitChar c (a ++ c :: b) = splitChar c a ++ splitChar c b := by
  induction a with
  | nil =>
    rcases h : splitChar c b with _ | ⟨hd, tl⟩
    · exact absurd h (splitChar_ne_nil c b)
    · simp [splitChar, h]
  | cons x a ih =>
    rcases h : splitChar c a with _ | ⟨hd, tl⟩
    · exact absurd h (splitChar_ne_nil c a)
    · by_cases hx : x = c <;>
        simp [splitChar, ih, h, hx]

theorem getLastD_append_right {α : Type} (l₁ : List α) {l₂ : List α}
    (h : l₂ ≠ []) (d : α) : (l₁ ++ l₂).getLastD d = l₂.getLastD d := by
  induction l₁ generalizing d with
  | nil => rfl
  | cons x l₁ ih =>
    rw [List.cons_append, List.getLastD_cons, ih x]
    cases l₂ with
    | nil => exact absurd rfl h
    | cons y l => rw [List.getLastD_cons, List.getLastD_cons]

theorem lastColonSeg_concat (x y : String) :
    lastColonSeg (x ++ ":" ++ y) = lastColonSeg y := by
  unfold lastColonSeg
  apply congrArg
  have hc : (":" : String).data = [':'] := rfl
  have hdata : (x ++ ":" ++ y).data = x.data ++ ':' :: y.data := by
    simp [String.data_append, hc]
  rw [hdata, splitChar_append]
  exact getLastD_append_right _ (splitChar_ne_nil _ _) _

theorem structFieldSeg_named (f : Field) (n : String) (h : f.ident = some n) :
    structFieldSeg f = lastColonSeg (" " ++ f.ty.text ++ " . ty") := by
  have hstr : fieldTokenString f =
      (attrsRender f.attrs ++ f.vis ++ n ++ " ") ++ ":" ++
        (" " ++ f.ty.text ++ " . ty") := by
    apply String.ext
    unfold fieldTokenString
    rw [h]
    have d1 : (" : " : String).data = [' ', ':', ' '] := rfl
    have d2 : (":" : String).data = [':'] := rfl
    have d3 : (" " : String).data = [' '] := rfl
    simp [String.data_append, d1, d2, d3]
  unfold structFieldSeg
  rw [hstr, lastColonSeg_concat]

theorem nlFree_notMem {s : String} (h : nlFree s = true) : '\n' ∉ s.data := by
  intro hmem
  have := List.all_eq_true.mp h _ hmem
  simp at this

theorem noNl_split (a : List Char) {b x y : List Char}
    (ha : '\n' ∉ a) (hb : '\n' ∉ b)
    (h : a ++ '\n' :: x = b ++ '\n' :: y) : a = b ∧ x = y := by
  induction a generalizing b with
  | nil =>
    cases b with
    | nil => simpa using h
    | cons c bs =>
      exfalso
      have hc : '\n' = c := by simpa using congrArg (fun l => l.headD ' ') h
      exact hb (by simp [← hc])
  | cons c as ih =>
    cases b with
    | nil =>
      exfalso
      have hc : c = '\n' := by simpa using congrArg (fun l => l.headD ' ') h
      exact ha (by simp [hc])
    | cons d bs =>
      simp only [List.cons_append, List.cons.injEq] at h
      obtain ⟨hcd, ht⟩ := h
      have := ih (fun hm => ha (List.mem_cons_of_mem _ hm))
        (fun hm => hb (List.mem_cons_of_mem _ hm)) ht
      exact ⟨by simp [hcd, this.1], this.2⟩

theorem segsText_inj (L₁ : List String) {L₂ : List String}
    (h₁ : ∀ s ∈ L₁, nlFree s = true) (h₂ : ∀ s ∈ L₂, nlFree s = true)
    (h : segsText L₁ = segsText L₂) : L₁ = L₂ := by
  have e : ∀ (s rest : String), (("field: " ++ s ++ "\n") ++ rest).data =
      "field: ".data ++ (s.data ++ '\n' :: rest.data) := by
    intro s rest
    have hn : ("\n" : String).data = ['\n'] := rfl
    simp [String.data_append, hn]
  have hfd : ("field: " : String).data = 'f' :: "ield: ".data := rfl
  have h0 : ("" : String).data = [] := rfl
  induction L₁ generalizing L₂ with
  | nil =>
    cases L₂ with
    | nil => rfl
    | cons s r =>
      exfalso
      have hd := congrArg String.data h
      simp only [segsText] at hd
      rw [e s (segsText r), hfd] at hd
      exact absurd hd (by simp)
  | cons s r ih =>
    cases L₂ with
    | nil =>
      exfalso
      have hd := congrArg String.data h
      simp only [segsText] at hd
      rw [e s (segsText r), hfd] at hd
      exact absurd hd.symm (by simp)
    | cons s' r' =>
      have hd := congrArg String.data h
      simp only [segsText] at hd
      rw [e, e] at hd
      have hcancel := List.append_cancel_left hd
      obtain ⟨hs, hr⟩ := noNl_split _ (nlFree_notMem (h₁ s (by simp)))
        (nlFree_notMem (h₂ s' (by simp))) hcancel
      have hss : s = s' := String.ext hs
      have hrr : r = r' := ih (fun t ht => h₁ t (by simp [ht]))
        (fun t ht => h₂ t (by simp [ht])) (String.ext hr)
      rw [hss, hrr]

theorem sff_fst (fs : List Field) :
    (struct_fields_fingerprint fs).1 = segsText (structSegs fs) := by
  induction fs with
  | nil => rfl
  | cons f fs ih =>
    by_cases hf : should_skip_field f
    · simp [struct_fields_fingerprint, structSegs, hf, ih]
    · simp [struct_fields_fingerprint, structSegs, segsText, structFieldLine,
        hf, ih, String.append_assoc]

/-! ## Claim C1 -/

/-- Claim C1 is false on the code: the record fingerprint excludes the
field name (only the text after the last colon of the rendered field
enters the canonical text), so renaming a non-skip field while keeping
its type text produces the identical fingerprint text, hence the
identical digest.  Concretely, `struct S { a: u32 }` and
`struct S { b: u32 }` fingerprint identically. -/
theorem c1_counterexample :
    [fieldA] ≠ [fieldB] ∧ fieldA.ident ≠ fieldB.ident ∧
    fieldA.ty = fieldB.ty ∧ should_skip_field fieldA = false ∧
    structFingerprintText "S" (.named [fieldA]) =
      structFingerprintText "S" (.named [fieldB]) := by
  decide

/-- Claim C1 (amended): for every record declaration outside the wire
boundary, renaming fields — keeping each field's type, visibility and
attributes — leaves the digest unchanged, for every digest function,
because the canonical record text drops everything up to the last colon
of each rendered field. -/
theorem c1_rename_keeps_record_digest (hash : String → String) (name : String)
    (fs fs' : List Field)
    (h : List.Forall₂ (fun f f' => f.ident.isSome ∧ f'.ident.isSome ∧
          f.ty = f'.ty ∧ f.vis = f'.vis ∧ f.attrs = f'.attrs) fs fs') :
    hash (structFingerprintText name (.named fs)) =
      hash (structFingerprintText name (.named fs')) := by
  apply congrArg
  suffices hp : struct_fields_fingerprint fs = struct_fields_fingerprint fs' by
    simp only [structFingerprintText]
    rw [hp]
  induction h with
  | nil => rfl
  | @cons f f' l l' hf _ ih =>
    obtain ⟨h₁, h₂, hty, hvis, hattrs⟩ := hf
    obtain ⟨n, hn⟩ := Option.isSome_iff_exists.mp h₁
    obtain ⟨n', hn'⟩ := Option.isSome_iff_exists.mp h₂
    have hskip : should_skip_field f = should_skip_field f' := by
      unfold should_skip_field
      rw [hattrs]
    have hline : structFieldLine f = structFieldLine f' := by
      unfold structFieldLine
      rw [structFieldSeg_named f n hn, structFieldSeg_named f' n' hn', hty]
    by_cases hsf : should_skip_field f
    · simp [struct_fields_fingerprint, hsf, ← hskip, ih]
    · simp [struct_fields_fingerprint, hsf, ← hskip, ih, hline, hty]

/-- Witness for C1: the amended theorem applied to the concrete rename
`a: u32` to `b: u32`. -/
theorem c1_witness :
    id (structFingerprintText "S" (.named [fieldA])) =
      id (structFingerprintText "S" (.named [fieldB])) :=
  c1_rename_keeps_record_digest id "S" [fieldA] [fieldB]
    (List.forall₂_cons.mpr ⟨⟨by decide, by decide, by decide, by decide, by decide⟩,
      List.Forall₂.nil⟩)

/-! ## Claim C8 -/

/-- Claim C8 is false on the code: because field names are excluded from
the record fingerprint text, swapping two distinct fields that share one
type text is a non-identity permutation of the declared (two-field,
non-skip) order that leaves the fingerprint text — hence the digest —
unchanged.  Concretely, `struct S { a: u32, b: u32 }` and
`struct S { b: u32, a: u32 }` fingerprint identically. -/
theorem c8_counterexample :
    [fieldA, fieldB] ≠ [fieldB, fieldA] ∧
    List.Perm [fieldA, fieldB] [fieldB, fieldA] ∧
    should_skip_field fieldA = false ∧ should_skip_field fieldB = false ∧
    structFingerprintText "S" (.named [fieldA, fieldB]) =
      structFingerprintText "S" (.named [fieldB, fieldA]) := by
  decide

/-- Claim C8 (amended): permuting the declared field order of a record
outside the wire boundary changes the digest whenever the permutation
changes the ordered sequence of per-field type segments (which any
permutation of fields with pairwise distinct type texts does), for every
injective digest; the newline-freeness hypotheses hold for every rendered
token stream and make the line decomposition unambiguous. -/
theorem c8_perm_changes_digest (hash : String → String)
    (hinj : Function.Injective hash) (name : String) (fs fs' : List Field)
    (_hperm : List.Perm fs fs')
    (hnl : ∀ f ∈ fs, nlFree (structFieldSeg f) = true)
    (hnl' : ∀ f ∈ fs', nlFree (structFieldSeg f) = true)
    (hdiff : structSegs fs ≠ structSegs fs') :
    hash (structFingerprintText name (.named fs)) ≠
      hash (structFingerprintText name (.named fs')) := by
  intro h
  apply hdiff
  have htext := hinj h
  simp only [structFingerprintText] at htext
  rw [sff_fst, sff_fst] at htext
  have hd := congrArg String.data htext
  rw [String.data_append, String.data_append] at hd
  have hseg := List.append_cancel_left hd
  refine segsText_inj _ ?_ ?_ (String.ext hseg)
  · intro s hs
    obtain ⟨f, hf, rfl⟩ := List.mem_map.mp hs
    exact hnl f (List.mem_of_mem_filter hf)
  · intro s hs
    obtain ⟨f, hf, rfl⟩ := List.mem_map.mp hs
    exact hnl' f (List.mem_of_mem_filter hf)

/-- Witness for C8: swapping `a: u32` and `c: u64` changes the
fingerprint text, with the identity as the (injective) digest. -/
theorem c8_witness :
    id (structFingerprintText "S" (.named [fieldA, fieldC])) ≠
      id (structFingerprintText "S" (.named [fieldC, fieldA])) :=
  c8_perm_changes_digest id (fun _ _ hab => hab) "S" [fieldA, fieldC]
    [fieldC, fieldA] (by decide) (by decide) (by decide) (by decide)

/-! ## Claim C9 -/

theorem sff_skip {f : Field} (hf : should_skip_field f = true)
    (pre post : List Field) :
    struct_fields_fingerprint (pre ++ f :: post) =
      struct_fields_fingerprint (pre ++ post) := by
  induction pre with
  | nil => simp [struct_fields_fingerprint, hf]
  | cons g pre ih => simp [struct_fields_fingerprint, ih]

theorem vff_skip {f : Field} (hf : should_skip_field f = true)
    (pre post : List Field) :
    variant_fields_fingerprint (pre ++ f :: post) =
      variant_fields_fingerprint (pre ++ post) := by
  induction pre with
  | nil => simp [variant_fields_fingerprint, hf]
  | cons g pre ih => simp [variant_fields_fingerprint, ih]

theorem evf_skip {f : Field} (hf : should_skip_field f = true)
    (vpre : List Variant) (vn : String) (fpre fpost : List Field)
    (vpost : List Variant) :
    enum_variants_fingerprint (vpre ++ ⟨vn, fpre ++ f :: fpost⟩ :: vpost) =
      enum_variants_fingerprint (vpre ++ ⟨vn, fpre ++ fpost⟩ :: vpost) := by
  induction vpre with
  | nil => simp [enum_variants_fingerprint, vff_skip hf]
  | cons v vpre ih => simp [enum_variants_fingerprint, ih]

/-- Claim C9 (confirmed): a skip-annotated field contributes neither a
fingerprint line nor dependency edges, whether it sits among a record's
named fields or inside a sum type's variant payload; hence inserting a
skip-marked field anywhere leaves the digest (for every digest function)
and the recorded dependency list unchanged. -/
theorem c9_skip_contributes_nothing (f : Field)
    (hf : should_skip_field f = true) :
    (∀ (hash : String → String) (name : String) (pre post : List Field),
        hash (structFingerprintText name (.named (pre ++ f :: post))) =
          hash (structFingerprintText name (.named (pre ++ post))) ∧
        structDeps (.named (pre ++ f :: post)) =
          structDeps (.named (pre ++ post))) ∧
    (∀ (hash : String → String) (name vn : String) (vpre vpost : List Variant)
        (fpre fpost : List Field),
        hash (enumFingerprintText name (vpre ++ ⟨vn, fpre ++ f :: fpost⟩ :: vpost)) =
          hash (enumFingerprintText name (vpre ++ ⟨vn, fpre ++ fpost⟩ :: vpost)) ∧
        enumDeps (vpre ++ ⟨vn, fpre ++ f :: fpost⟩ :: vpost) =
          enumDeps (vpre ++ ⟨vn, fpre ++ fpost⟩ :: vpost)) := by
  constructor
  · intro hash name pre post
    constructor
    · apply congrArg
      simp only [structFingerprintText]
      rw [sff_skip hf]
    · simp only [structDeps]
      rw [sff_skip hf]
  · intro hash name vn vpre vpost fpre fpost
    constructor
    · apply congrArg
      simp only [enumFingerprintText]
      rw [evf_skip hf]
    · simp only [enumDeps]
      rw [evf_skip hf]

/-- Witness for C9: inserting the concrete `#[serde(skip)] cache: u32`
field after `a: u32` leaves the record fingerprint text unchanged. -/
theorem c9_witness :
    should_skip_field skipField = true ∧
    id (structFingerprintText "S" (.named ([fieldA] ++ skipField :: []))) =
      id (structFingerprintText "S" (.named ([fieldA] ++ []))) :=
  ⟨by decide,
    ((c9_skip_contributes_nothing skipField (by decide)).1 id "S" [fieldA] []).1⟩

/-! ## Claim C10 -/

/-- Claim C10 (confirmed): visiting a tuple or unit struct outside the
wire boundary stores the digest of the declaration-name line alone and
leaves the dependency map untouched (the empty dependency list makes
`add_type_deps` a no-op), so the stored state — in particular the digest
and the set of reachable types — does not depend on the field contents at
all. -/
theorem c10_non_named_struct (hash : String → String) (st : VisitorState)
    (name : String) (flds : StructFields)
    (hrpc : st.in_rpc = false) (hn : flds.isNamed = false) :
    inner_visit_item_struct hash st ⟨name, flds⟩ =
      some { st with
        types := st.types ++ [name],
        type_fingerprint :=
          hmInsert name (hash ("struct_name:" ++ name ++ "\n"))
            st.type_fingerprint } := by
  have hemp : ("struct_name:" ++ name ++ "\n" : String) ++ "" =
      "struct_name:" ++ name ++ "\n" := by
    apply String.ext
    simp [String.data_append]
  cases flds with
  | named fs => simp [StructFields.isNamed] at hn
  | unnamed fs =>
    simp [inner_visit_item_struct, hrpc, structFingerprintText, structDeps,
      add_type_deps, hemp]
  | unit =>
    simp [inner_visit_item_struct, hrpc, structFingerprintText, structDeps,
      add_type_deps, hemp]

/-- Witness for C10: the tuple struct `struct Pt(u32)` visited on the
fresh state. -/
theorem c10_witness :
    inner_visit_item_struct id initialState ⟨"Pt", .unnamed [fieldA]⟩ =
      some { initialState with
        types := initialState.types ++ ["Pt"],
        type_fingerprint :=
          hmInsert "Pt" (id ("struct_name:" ++ "Pt" ++ "\n"))
            initialState.type_fingerprint } :=
  c10_non_named_struct id initialState "Pt" (.unnamed [fieldA]) rfl rfl

/-! ## Claim C3 -/

/-- Claim C3 is false on the code: a two-identifier field type whose
outer identifier is not the optional wrapper is still checked —
`v: Vec<u64>` with no annotation reaches the annotation comparison, emits
a diagnostic with expected marker `U64Hex`, and sets the error flag. -/
theorem c3_counterexample :
    calc_dep_types vecField.ty = ["Vec", "u64"] ∧
    check_rpc_field vecField = .missing "U64Hex" ∧
    (check_rpc_field vecField).checked = true ∧
    (check_rpc_field vecField).isError = true := by
  decide

/-- Claim C3 (amended): the validator checks a wire-boundary field
exactly when the extracted identifier list has length one or two and its
last (innermost) identifier is a fixed-width unsigned integer name; the
outer identifier is never compared against the optional wrapper to decide
scope — it only selects the `Option<..Hex>` form of the expected
annotation value. -/
theorem c3_checked_iff (f : Field) :
    (check_rpc_field f).checked = true ↔
      ((calc_dep_types f.ty).length = 1 ∨ (calc_dep_types f.ty).length = 2) ∧
        isUIntName ((calc_dep_types f.ty).getLastD "") = true := by
  unfold check_rpc_field
  by_cases h2 : 2 < (calc_dep_types f.ty).length
  · simp only [if_pos h2]
    constructor
    · intro hc
      exact absurd hc (by simp [RpcCheckResult.checked])
    · rintro ⟨h1, _⟩
      omega
  · simp only [if_neg h2]
    push_neg at h2
    cases hl : (calc_dep_types f.ty).getLast? with
    | none =>
      have hnil : calc_dep_types f.ty = [] := by
        simpa using hl
      simp [hnil, RpcCheckResult.checked]
    | some last =>
      have hne : calc_dep_types f.ty ≠ [] := by
        intro hc
        rw [hc] at hl
        simp at hl
      have hlen1 : 1 ≤ (calc_dep_types f.ty).length :=
        List.length_pos.mpr hne
      have hlast : (calc_dep_types f.ty).getLastD "" = last := by
        rw [List.getLastD_eq_getLast?, hl]
        rfl
      by_cases hnum : isUIntName last
      · apply iff_of_true
        · simp only [hnum, Bool.not_true, Bool.false_eq_true, if_false]
          split
          all_goals split
          all_goals first
            | rfl
            | (cases f.ident <;> rfl)
        · refine ⟨by omega, ?_⟩
          rw [hlast]
          exact hnum
      · apply iff_of_false
        · simp [hnum, RpcCheckResult.checked]
        · rintro ⟨_, hnum'⟩
          rw [hlast] at hnum'
          exact hnum hnum'

/-! ## Claim C4 -/

/-- Claim C4 describes the specified behaviour, but the code panics on
it: a non-skip wire-boundary field whose type yields zero identifier
tokens (here the tuple `pair: (u8, u8)`) passes the `len() > 2` early
return and then crashes on `dep_types.last().unwrap()` instead of being
left unchecked — the surrounding field scan aborts with a panic rather
than completing normally. -/
theorem c4_zero_ident_panics :
    should_skip_field tupleField = false ∧
    calc_dep_types tupleField.ty = [] ∧
    check_rpc_field tupleField = .panicEmptyDeps ∧
    RpcCheckResult.panicEmptyDeps.isPanic = true ∧
    rpc_check_fields [tupleField] = none := by
  decide

/-! ## Claims C5 and C6 -/

/-- Claim C5 (confirmed): with the RPC error flag clear, a drift
violation — an old-baseline entry whose name still has a (different) new
digest — and no forced update make the run exit with status 1, leave the
baseline file unwritten, and report the violation with its type name, old
digest, new digest and dependency chains. -/
theorem c5_drift_fails_without_write (st : VisitorState)
    (old : List (String × String)) (fuel : Nat) (n od nf : String)
    (herr : st.has_error = false) (hmem : (n, od) ∈ old)
    (hnew : (construct_finger_print st fuel).lookup n = some nf)
    (hne : od ≠ nf) :
    (report_and_dump st old false fuel).exit_code = 1 ∧
    (report_and_dump st old false fuel).written = none ∧
    (n, od, nf, try_find_type_chain st fuel n) ∈
      (report_and_dump st old false fuel).violations := by
  unfold report_and_dump
  rw [herr]
  simp only [Bool.false_eq_true, if_false]
  have hv : (n, od, nf, try_find_type_chain st fuel n) ∈
      old.filterMap (fun p =>
        match (construct_finger_print st fuel).lookup p.1 with
        | some newf =>
          if p.2 ≠ newf then
            some (p.1, p.2, newf, try_find_type_chain st fuel p.1)
          else none
        | none => none) := by
    refine List.mem_filterMap.mpr ⟨(n, od), hmem, ?_⟩
    simp [hnew, hne]
  have hnonempty : ¬(old.filterMap (fun p =>
      match (construct_finger_print st fuel).lookup p.1 with
      | some newf =>
        if p.2 ≠ newf then
          some (p.1, p.2, newf, try_find_type_chain st fuel p.1)
        else none
      | none => none)).isEmpty = true := by
    intro hemp
    rw [List.isEmpty_iff] at hemp
    rw [hemp] at hv
    exact absurd hv (List.not_mem_nil _)
  rw [if_neg hnonempty]
  exact ⟨rfl, rfl, hv⟩

/-- Witness for C5: the scenario state with a drifted baseline entry for
`Account`. -/
theorem c5_witness :
    (report_and_dump scenarioState [("Account", "OLD")] false 9).exit_code = 1 ∧
    (report_and_dump scenarioState [("Account", "OLD")] false 9).written = none ∧
    ("Account", "OLD", "struct_name:Account\nfield:  u32 . ty\n",
        try_find_type_chain scenarioState 9 "Account") ∈
      (report_and_dump scenarioState [("Account", "OLD")] false 9).violations :=
  c5_drift_fails_without_write scenarioState [("Account", "OLD")] 9 "Account"
    "OLD" "struct_name:Account\nfield:  u32 . ty\n" (by decide) (by decide)
    (by decide) (by decide)

/-- Claim C6 (confirmed): every reported drift violation names a type
present in the old baseline whose name still has an entry in the new
closure map — so a type present only in the old baseline is never
flagged, for every update flag and error-flag value. -/
theorem c6_violations_need_both_entries (st : VisitorState)
    (old : List (String × String)) (update : Bool) (fuel : Nat)
    (v : String × String × String × List String)
    (hv : v ∈ (report_and_dump st old update fuel).violations) :
    (v.1, v.2.1) ∈ old ∧
      (construct_finger_print st fuel).lookup v.1 = some v.2.2.1 := by
  unfold report_and_dump at hv
  by_cases herr : st.has_error
  · rw [if_pos herr] at hv
    exact absurd hv (List.not_mem_nil _)
  · rw [if_neg herr] at hv
    cases update with
    | true => simp at hv
    | false =>
      simp only [Bool.false_eq_true, if_false] at hv
      split at hv
      · simp at hv
      · obtain ⟨p, hp, heq⟩ := List.mem_filterMap.mp hv
        rcases hlk : (construct_finger_print st fuel).lookup p.1 with _ | newf
        · rw [hlk] at heq
          exact absurd heq (by simp)
        · rw [hlk] at heq
          have heq' : (if p.2 ≠ newf then
              some (p.1, p.2, newf, try_find_type_chain st fuel p.1)
            else none) = some v := heq
          by_cases hne : p.2 ≠ newf
          · rw [if_pos hne] at heq'
            obtain rfl := (Option.some.injEq _ _).mp heq'
            exact ⟨hp, hlk⟩
          · rw [if_neg hne] at heq'
            exact absurd heq' (by simp)

/-- Witness for C6: the concrete violation reported in the drifted
scenario. -/
theorem c6_witness :
    ("Account", ("OLD" : String)) ∈ [("Account", ("OLD" : String))] ∧
      (construct_finger_print scenarioState 9).lookup "Account" =
        some "struct_name:Account\nfield:  u32 . ty\n" :=
  c6_violations_need_both_entries scenarioState [("Account", "OLD")] false 9
    ("Account", "OLD", "struct_name:Account\nfield:  u32 . ty\n",
      try_find_type_chain scenarioState 9 "Account") (by decide)

/-! ## Claim C2 -/

theorem rec_find_sound (D : String → List String) :
    ∀ (fuel : Nat) (target name : String) (chain : List String)
      (res : List (List String)) (c : List String),
      c ∈ recurisve_find_type D fuel target name chain res →
      c ∈ res ∨ ∃ p, DPath D target name p ∧ c = chain ++ p := by
  intro fuel
  induction fuel with
  | zero =>
    intro target name chain res c hc
    exact Or.inl hc
  | succ fuel ih =>
    intro target name chain res c hc
    by_cases ht : target = name
    · simp only [recurisve_find_type, if_pos ht] at hc
      rcases List.mem_append.mp hc with h | h
      · exact Or.inl h
      · right
        refine ⟨[name], ?_, by simpa using h⟩
        rw [ht]
        exact DPath.found
    · simp only [recurisve_find_type, if_neg ht] at hc
      have hfold : ∀ (ds : List String) (res : List (List String))
          (c : List String),
          c ∈ ds.foldl (fun r dep =>
            recurisve_find_type D fuel target dep (chain ++ [name]) r) res →
          c ∈ res ∨ ∃ d ∈ ds, ∃ p, DPath D target d p ∧
            c = (chain ++ [name]) ++ p := by
        intro ds
        induction ds with
        | nil =>
          intro res c h
          exact Or.inl h
        | cons d ds ihds =>
          intro res c h
          rcases ihds _ _ h with h' | ⟨d', hd', p, hp, hc'⟩
          · rcases ih target d (chain ++ [name]) res c h' with h'' | ⟨p, hp, hc'⟩
            · exact Or.inl h''
            · exact Or.inr ⟨d, by simp, p, hp, hc'⟩
          · exact Or.inr ⟨d', by simp [hd'], p, hp, hc'⟩
      rcases hfold (D name) res c hc with h | ⟨d, hd, p, hp, hc'⟩
      · exact Or.inl h
      · right
        refine ⟨name :: p, DPath.step (fun he => ht he.symm) hd hp, ?_⟩
        rw [hc', List.append_assoc]
        simp

theorem try_find_sound (st : VisitorState) (fuel : Nat) (target s : String)
    (hs : s ∈ try_find_type_chain st fuel target) :
    ∃ root p, root ∈ st.store_types ∧
      DPath (depsOf st.type_deps) target root p ∧
      s = String.intercalate " -> " p := by
  unfold try_find_type_chain at hs
  obtain ⟨chain, hchain, rfl⟩ := List.mem_map.mp hs
  have hfold : ∀ (roots : List String) (res : List (List String))
      (c : List String),
      c ∈ roots.foldl (fun r root =>
        recurisve_find_type (depsOf st.type_deps) fuel target root [] r) res →
      c ∈ res ∨ ∃ root ∈ roots, ∃ p,
        DPath (depsOf st.type_deps) target root p ∧ c = p := by
    intro roots
    induction roots with
    | nil =>
      intro res c h
      exact Or.inl h
    | cons r roots ihr =>
      intro res c h
      rcases ihr _ _ h with h' | ⟨root, hroot, p, hp, hc⟩
      · rcases rec_find_sound _ fuel target r [] res c h' with h'' | ⟨p, hp, hc⟩
        · exact Or.inl h''
        · exact Or.inr ⟨r, by simp, p, hp, by simpa using hc⟩
      · exact Or.inr ⟨root, by simp [hroot], p, hp, hc⟩
  rcases hfold st.store_types [] chain hchain with h | ⟨root, hroot, p, hp, hc⟩
  · exact absurd h (List.not_mem_nil _)
  · exact ⟨root, p, hroot, hp, congrArg (String.intercalate " -> ") hc⟩

/-- Claim C2 is false on the code in its chain-form part: the reported
chains start at the members of the root set (the dependency identifiers
of the marker enum's variant payloads), not at the marker itself.  In the
scenario — marker `enum KeyValue { Key(Account) }`, so that the variant
payload references `Account`, with `Account` the drifting type — the root
set is `["Account"]` and the only reported chain string is `"Account"`;
no reported string is `"KeyValue -> Account"` (the code's literal marker
name standing for the spec's `KeyValueMarker`). -/
theorem c2_counterexample :
    scenarioState.store_types = ["Account"] ∧
    depsOf scenarioState.type_deps "KeyValue" = ["Account"] ∧
    try_find_type_chain scenarioState 9 "Account" = ["Account"] ∧
    "KeyValue -> Account" ∉ try_find_type_chain scenarioState 9 "Account" := by
  decide

/-- Claim C2 (amended): every reported chain string is the rendering of a
full dependency path that starts at some member of the root set and ends
at the violating type; in the scenario where the marker's variant payload
references `Account` directly, the root set is `{Account}` and the single
reported chain is `"Account"` (not `"KeyValueMarker -> Account"`, which
would require the marker itself to be a root-set member). -/
theorem c2_chains_are_root_paths :
    (∀ (st : VisitorState) (fuel : Nat) (target s : String),
        s ∈ try_find_type_chain st fuel target →
        ∃ root p, root ∈ st.store_types ∧
          DPath (depsOf st.type_deps) target root p ∧
          s = String.intercalate " -> " p) ∧
    try_find_type_chain scenarioState 9 "Account" = ["Account"] :=
  ⟨fun st fuel target s hs => try_find_sound st fuel target s hs, by decide⟩

/-- Witness for C2: the scenario's reported chain string `"Account"` is
the rendering of a root-set path to the violating type. -/
theorem c2_witness :
    ∃ root p, root ∈ scenarioState.store_types ∧
      DPath (depsOf scenarioState.type_deps) "Account" root p ∧
      "Account" = String.intercalate " -> " p :=
  c2_chains_are_root_paths.1 scenarioState 9 "Account" "Account" (by decide)

/-! ## Claim C7: graph lemmas for the closure traversal -/

theorem dfs_subset (D : String → List String) :
    ∀ (fuel : Nat) (n : String) (vis : List String), vis ⊆ dfs D fuel n vis := by
  intro fuel
  induction fuel with
  | zero =>
    intro n vis x hx
    exact hx
  | succ fuel ih =>
    intro n vis
    by_cases hn : n ∈ vis
    · simp only [dfs, if_pos hn]
      exact fun x hx => hx
    · simp only [dfs, if_neg hn]
      have hfold : ∀ (ds : List String) (acc : List String),
          acc ⊆ ds.foldl (fun v d => dfs D fuel d v) acc := by
        intro ds
        induction ds with
        | nil => intro acc x hx; exact hx
        | cons d ds ihds => intro acc x hx; exact ihds _ (ih d acc hx)
      exact fun x hx => hfold (D n) (n :: vis) (List.mem_cons_of_mem _ hx)

theorem dfs_fold_subset (D : String → List String) (fuel : Nat) :
    ∀ (ds : List String) (acc : List String),
      acc ⊆ ds.foldl (fun v d => dfs D fuel d v) acc := by
  intro ds
  induction ds with
  | nil => intro acc x hx; exact hx
  | cons d ds ihds => intro acc x hx; exact ihds _ (dfs_subset D fuel d acc hx)

theorem dfs_mem_self (D : String → List String) (fuel : Nat) (n : String)
    (vis : List String) (h : 1 ≤ fuel) : n ∈ dfs D fuel n vis := by
  cases fuel with
  | zero => omega
  | succ fuel =>
    by_cases hn : n ∈ vis
    · simp only [dfs, if_pos hn]
      exact hn
    · simp only [dfs, if_neg hn]
      exact dfs_fold_subset D fuel (D n) (n :: vis) (by simp)

theorem dfs_nodup (D : String → List String) :
    ∀ (fuel : Nat) (n : String) (vis : List String), vis.Nodup →
      (dfs D fuel n vis).Nodup := by
  intro fuel
  induction fuel with
  | zero =>
    intro n vis h
    exact h
  | succ fuel ih =>
    intro n vis h
    by_cases hn : n ∈ vis
    · simp only [dfs, if_pos hn]
      exact h
    · simp only [dfs, if_neg hn]
      have hfold : ∀ (ds : List String) (acc : List String), acc.Nodup →
          (ds.foldl (fun v d => dfs D fuel d v) acc).Nodup := by
        intro ds
        induction ds with
        | nil => intro acc ha; exact ha
        | cons d ds ihds => intro acc ha; exact ihds _ (ih d acc ha)
      exact hfold (D n) (n :: vis) (List.nodup_cons.mpr ⟨hn, h⟩)

theorem reaches_head (D : String → List String) {n d x : String}
    (hd : d ∈ D n) (h : Reaches D d x) : Reaches D n x := by
  induction h with
  | refl => exact Reaches.tail (Reaches.refl n) hd
  | tail _ hbc ih => exact Reaches.tail ih hbc

theorem dfs_sound (D : String → List String) :
    ∀ (fuel : Nat) (n : String) (vis : List String) (x : String),
      x ∈ dfs D fuel n vis → x ∈ vis ∨ Reaches D n x := by
  intro fuel
  induction fuel with
  | zero =>
    intro n vis x hx
    exact Or.inl hx
  | succ fuel ih =>
    intro n vis x hx
    by_cases hn : n ∈ vis
    · simp only [dfs, if_pos hn] at hx
      exact Or.inl hx
    · simp only [dfs, if_neg hn] at hx
      have hfold : ∀ (ds : List String) (acc : List String) (x : String),
          x ∈ ds.foldl (fun v d => dfs D fuel d v) acc →
          x ∈ acc ∨ ∃ d ∈ ds, Reaches D d x := by
        intro ds
        induction ds with
        | nil =>
          intro acc x h
          exact Or.inl h
        | cons d ds ihds =>
          intro acc x h
          rcases ihds _ _ h with h' | ⟨d', hd', hr⟩
          · rcases ih d acc x h' with h'' | hr
            · exact Or.inl h''
            · exact Or.inr ⟨d, by simp, hr⟩
          · exact Or.inr ⟨d', by simp [hd'], hr⟩
      rcases hfold (D n) (n :: vis) x hx with h | ⟨d, hd, hr⟩
      · rcases List.mem_cons.mp h with h' | h'
        · right
          rw [h']
          exact Reaches.refl n
        · exact Or.inl h'
      · exact Or.inr (reaches_head D hd hr)

theorem dfs_fold_sound (D : String → List String) (fuel : Nat) :
    ∀ (roots : List String) (acc : List String) (x : String),
      x ∈ roots.foldl (fun v r => dfs D fuel r v) acc →
      x ∈ acc ∨ ∃ r ∈ roots, Reaches D r x := by
  intro roots
  induction roots with
  | nil =>
    intro acc x h
    exact Or.inl h
  | cons r roots ihr =>
    intro acc x h
    rcases ihr _ _ h with h' | ⟨r', hr', hreach⟩
    · rcases dfs_sound D fuel r acc x h' with h'' | hreach
      · exact Or.inl h''
      · exact Or.inr ⟨r, by simp, hreach⟩
    · exact Or.inr ⟨r', by simp [hr'], hreach⟩

theorem unvisited_le (V : List String) {vis vis' : List String}
    (h : vis ⊆ vis') : unvisitedCount V vis' ≤ unvisitedCount V vis := by
  apply Finset.card_le_card
  apply Finset.sdiff_subset_sdiff (le_refl _)
  intro x hx
  simp only [List.mem_toFinset] at hx ⊢
  exact h hx

theorem unvisited_card_le (V : List String) (vis : List String) :
    unvisitedCount V vis ≤ V.toFinset.card :=
  Finset.card_le_card (Finset.sdiff_subset)

theorem unvisited_succ {V : List String} {n : String} {vis : List String}
    (hnV : n ∈ V) (hnvis : n ∉ vis) :
    unvisitedCount V (n :: vis) + 1 = unvisitedCount V vis := by
  unfold unvisitedCount
  rw [List.toFinset_cons, Finset.sdiff_insert]
  exact Finset.card_erase_add_one (by simp [List.mem_toFinset, hnV, hnvis])

/-- Central invariant of the cycle-guarded traversal: with fuel exceeding
the number of unvisited dependency targets, every name in the result is
either already visited or has all its dependency edges inside the result
(it was fully expanded). -/
theorem dfs_closed (D : String → List String) (V : List String)
    (HV : ∀ a, ∀ d ∈ D a, d ∈ V) :
    ∀ (fuel : Nat) (n : String) (vis : List String),
      ((n ∈ V ∧ unvisitedCount V vis + 1 ≤ fuel) ∨
        unvisitedCount V vis + 2 ≤ fuel) →
      ∀ y ∈ dfs D fuel n vis, y ∈ vis ∨ ∀ d ∈ D y, d ∈ dfs D fuel n vis := by
  intro fuel
  induction fuel with
  | zero =>
    intro n vis hfuel
    omega
  | succ fuel ih =>
    intro n vis hfuel y hy
    by_cases hn : n ∈ vis
    · simp only [dfs, if_pos hn] at hy ⊢
      exact Or.inl hy
    · simp only [dfs, if_neg hn] at hy ⊢
      have hfold : ∀ (ds : List String), (∀ d ∈ ds, d ∈ V) →
          ∀ (acc : List String), unvisitedCount V acc + 1 ≤ fuel →
          acc ⊆ ds.foldl (fun v d => dfs D fuel d v) acc ∧
          (∀ d ∈ ds, d ∈ ds.foldl (fun v d => dfs D fuel d v) acc) ∧
          (∀ y ∈ ds.foldl (fun v d => dfs D fuel d v) acc,
            y ∈ acc ∨ ∀ d' ∈ D y, d' ∈ ds.foldl (fun v d => dfs D fuel d v) acc) := by
        intro ds
        induction ds with
        | nil =>
          intro _ acc _
          exact ⟨fun x hx => hx, by simp, fun y hy => Or.inl hy⟩
        | cons d ds ihds =>
          intro hdsV acc hacc
          have hdV : d ∈ V := hdsV d (by simp)
          have hmid_closed := ih d acc (Or.inl ⟨hdV, hacc⟩)
          have hmid_sub : acc ⊆ dfs D fuel d acc := dfs_subset D fuel d acc
          have hmid_mem : d ∈ dfs D fuel d acc :=
            dfs_mem_self D fuel d acc (by omega)
          have hmid_count : unvisitedCount V (dfs D fuel d acc) + 1 ≤ fuel :=
            le_trans (by have := unvisited_le V hmid_sub; omega) hacc
          obtain ⟨hsub', hmem', hclosed'⟩ :=
            ihds (fun d' hd' => hdsV d' (by simp [hd'])) (dfs D fuel d acc)
              hmid_count
          simp only [List.foldl_cons]
          refine ⟨fun x hx => hsub' (hmid_sub hx), ?_, ?_⟩
          · intro d' hd'
            rcases List.mem_cons.mp hd' with h' | h'
            · rw [h']
              exact hsub' hmid_mem
            · exact hmem' d' h'
          · intro y hy
            rcases hclosed' y hy with h' | h'
            · rcases hmid_closed y h' with h'' | h''
              · exact Or.inl h''
              · exact Or.inr (fun d' hd' => hsub' (h'' d' hd'))
            · exact Or.inr h'
      have hacc : unvisitedCount V (n :: vis) + 1 ≤ fuel := by
        rcases hfuel with ⟨hnV, h1⟩ | h2
        · have := unvisited_succ hnV hn
          omega
        · have : unvisitedCount V (n :: vis) ≤ unvisitedCount V vis :=
            unvisited_le V (by intro x hx; exact List.mem_cons_of_mem _ hx)
          omega
      obtain ⟨hsub, hds, hclosed⟩ :=
        hfold (D n) (fun d hd => HV n d hd) (n :: vis) hacc
      rcases hclosed y hy with h' | h'
      · rcases List.mem_cons.mp h' with h'' | h''
        · right
          rw [h'']
          exact hds
        · exact Or.inl h''
      · exact Or.inr h'

/-- Fold-level consequence used for the root-set loop of the closure: with
globally sufficient fuel, the accumulated visited set contains the prior
set and every root, and is dependency-closed off the prior set. -/
theorem dfs_fold_props (D : String → List String) (V : List String)
    (HV : ∀ a, ∀ d ∈ D a, d ∈ V) (fuel : Nat)
    (hfuel : V.toFinset.card + 2 ≤ fuel) :
    ∀ (roots : List String) (acc : List String),
      acc ⊆ roots.foldl (fun v r => dfs D fuel r v) acc ∧
      (∀ r ∈ roots, r ∈ roots.foldl (fun v r => dfs D fuel r v) acc) ∧
      (∀ y ∈ roots.foldl (fun v r => dfs D fuel r v) acc,
        y ∈ acc ∨ ∀ d ∈ D y, d ∈ roots.foldl (fun v r => dfs D fuel r v) acc) := by
  intro roots
  induction roots with
  | nil =>
    intro acc
    exact ⟨fun x hx => hx, by simp, fun y hy => Or.inl hy⟩
  | cons r roots ihr =>
    intro acc
    have hcount : unvisitedCount V acc + 2 ≤ fuel :=
      le_trans (by have := unvisited_card_le V acc; omega) hfuel
    have hmid_closed := dfs_closed D V HV fuel r acc (Or.inr hcount)
    have hmid_sub : acc ⊆ dfs D fuel r acc := dfs_subset D fuel r acc
    have hmid_mem : r ∈ dfs D fuel r acc :=
      dfs_mem_self D fuel r acc (by omega)
    obtain ⟨hsub', hmem', hclosed'⟩ := ihr (dfs D fuel r acc)
    simp only [List.foldl_cons]
    refine ⟨fun x hx => hsub' (hmid_sub hx), ?_, ?_⟩
    · intro r' hr'
      rcases List.mem_cons.mp hr' with h' | h'
      · rw [h']
        exact hsub' hmid_mem
      · exact hmem' r' h'
    · intro y hy
      rcases hclosed' y hy with h' | h'
      · rcases hmid_closed y h' with h'' | h''
        · exact Or.inl h''
        · exact Or.inr (fun d hd => hsub' (h'' d hd))
      · exact Or.inr h'

/-- Visited-set projection: `collect_fingerprints` drives exactly the
traversal `dfs` on its visited component. -/
theorem collect_fst (st : VisitorState) :
    ∀ (fuel : Nat) (n : String) (acc : List String × List (String × String)),
      (collect_fingerprints st fuel n acc).1 =
        dfs (depsOf st.type_deps) fuel n acc.1 := by
  intro fuel
  induction fuel with
  | zero =>
    intro n acc
    rfl
  | succ fuel ih =>
    intro n acc
    obtain ⟨vis, fps⟩ := acc
    by_cases hn : n ∈ vis
    · simp only [collect_fingerprints, dfs, if_pos hn]
    · simp only [collect_fingerprints, dfs, if_neg hn]
      have hfold : ∀ (ds : List String)
          (acc : List String × List (String × String)),
          (ds.foldl (fun a dep => collect_fingerprints st fuel dep a) acc).1 =
            ds.foldl (fun v d => dfs (depsOf st.type_deps) fuel d v) acc.1 := by
        intro ds
        induction ds with
        | nil => intro acc; rfl
        | cons d ds ihds =>
          intro acc
          rw [List.foldl_cons, List.foldl_cons, ihds, ih]
      cases hlk : st.type_fingerprint.lookup n <;> simp [hlk, hfold]

/-- Fold version of the visited-set projection. -/
theorem collect_fold_fst (st : VisitorState) (fuel : Nat) :
    ∀ (ds : List String) (acc : List String × List (String × String)),
      (ds.foldl (fun a dep => collect_fingerprints st fuel dep a) acc).1 =
        ds.foldl (fun v d => dfs (depsOf st.type_deps) fuel d v) acc.1 := by
  intro ds
  induction ds with
  | nil => intro acc; rfl
  | cons d ds ihds =>
    intro acc
    rw [List.foldl_cons, List.foldl_cons, ihds, collect_fst]

theorem btInsert_keys (k v : String) :
    ∀ (m : List (String × String)) (y : String),
      y ∈ keysOf (btInsert k v m) ↔ y = k ∨ y ∈ keysOf m := by
  intro m
  induction m with
  | nil =>
    intro y
    simp [btInsert, keysOf]
  | cons p m ihm =>
    intro y
    obtain ⟨k', v'⟩ := p
    simp only [btInsert]
    by_cases h1 : k < k'
    · rw [if_pos h1]
      simp [keysOf]
    · rw [if_neg h1]
      by_cases h2 : k = k'
      · rw [if_pos h2]
        subst h2
        simp only [keysOf, List.map_cons, List.mem_cons]
        tauto
      · rw [if_neg h2]
        simp only [keysOf, List.map_cons, List.mem_cons]
        constructor
        · rintro (h | h)
          · exact Or.inr (Or.inl h)
          · rcases (ihm y).mp h with h' | h'
            · exact Or.inl h'
            · exact Or.inr (Or.inr h')
        · rintro (h | h | h)
          · exact Or.inr ((ihm y).mpr (Or.inl h))
          · exact Or.inl h
          · exact Or.inr ((ihm y).mpr (Or.inr h))

/-- Fingerprint-map invariant of the traversal: a key is collected
exactly when it was already present or it is a newly visited name that
has a recorded fingerprint. -/
theorem collect_keys (st : VisitorState) :
    ∀ (fuel : Nat) (n : String) (acc : List String × List (String × String))
      (y : String),
      y ∈ keysOf (collect_fingerprints st fuel n acc).2 ↔
        y ∈ keysOf acc.2 ∨
          (y ∈ (collect_fingerprints st fuel n acc).1 ∧ y ∉ acc.1 ∧
            (st.type_fingerprint.lookup y).isSome = true) := by
  intro fuel
  induction fuel with
  | zero =>
    intro n acc y
    simp only [collect_fingerprints]
    tauto
  | succ fuel ih =>
    intro n acc y
    obtain ⟨vis, fps⟩ := acc
    by_cases hn : n ∈ vis
    · simp only [collect_fingerprints, if_pos hn]
      tauto
    · have hkfold : ∀ (ds : List String)
          (acc : List String × List (String × String)) (y : String),
          y ∈ keysOf ((ds.foldl
              (fun a dep => collect_fingerprints st fuel dep a) acc)).2 ↔
            y ∈ keysOf acc.2 ∨
              (y ∈ (ds.foldl
                  (fun a dep => collect_fingerprints st fuel dep a) acc).1 ∧
                y ∉ acc.1 ∧
                (st.type_fingerprint.lookup y).isSome = true) := by
        intro ds
        induction ds with
        | nil =>
          intro acc y
          simp only [List.foldl_nil]
          tauto
        | cons d ds ihds =>
          intro acc y
          have hsub1 : acc.1 ⊆ (collect_fingerprints st fuel d acc).1 := by
            rw [collect_fst]
            exact dfs_subset _ fuel d acc.1
          have hsub2 : (collect_fingerprints st fuel d acc).1 ⊆
              (ds.foldl (fun a dep => collect_fingerprints st fuel dep a)
                (collect_fingerprints st fuel d acc)).1 := by
            rw [collect_fold_fst, collect_fst]
            exact dfs_fold_subset _ fuel ds _
          rw [List.foldl_cons]
          constructor
          · intro h
            rcases (ihds (collect_fingerprints st fuel d acc) y).mp h with
              h' | ⟨hfin, hnmid, hfp⟩
            · rcases (ih d acc y).mp h' with h'' | ⟨hmid, hnacc, hfp⟩
              · exact Or.inl h''
              · exact Or.inr ⟨hsub2 hmid, hnacc, hfp⟩
            · exact Or.inr ⟨hfin, fun hy => hnmid (hsub1 hy), hfp⟩
          · intro h
            rcases h with h' | ⟨hfin, hnacc, hfp⟩
            · exact (ihds _ y).mpr (Or.inl ((ih d acc y).mpr (Or.inl h')))
            · by_cases hmid : y ∈ (collect_fingerprints st fuel d acc).1
              · exact (ihds _ y).mpr
                  (Or.inl ((ih d acc y).mpr (Or.inr ⟨hmid, hnacc, hfp⟩)))
              · exact (ihds _ y).mpr (Or.inr ⟨hfin, hmid, hfp⟩)
      simp only [collect_fingerprints, if_neg hn]
      cases hlk : st.type_fingerprint.lookup n with
      | none =>
        rw [hkfold]
        constructor
        · intro h
          rcases h with h' | ⟨hr, hnv, hfp⟩
          · exact Or.inl h'
          · exact Or.inr ⟨hr, fun hy => hnv (List.mem_cons_of_mem _ hy), hfp⟩
        · intro h
          rcases h with h' | ⟨hr, hnv, hfp⟩
          · exact Or.inl h'
          · refine Or.inr ⟨hr, ?_, hfp⟩
            intro hy
            rcases List.mem_cons.mp hy with h'' | h''
            · rw [h''] at hfp
              rw [hlk] at hfp
              simp at hfp
            · exact hnv h''
      | some f =>
        rw [hkfold]
        have hnmem : n ∈ ((depsOf st.type_deps n).foldl
            (fun a dep => collect_fingerprints st fuel dep a)
            (n :: vis, btInsert n f fps)).1 := by
          rw [collect_fold_fst]
          exact dfs_fold_subset _ fuel _ _ (by simp)
        constructor
        · intro h
          rcases h with h' | ⟨hr, hnv, hfp⟩
          · rcases (btInsert_keys n f fps y).mp h' with h'' | h''
            · refine Or.inr ⟨?_, by rw [h'']; exact hn, by rw [h'', hlk]; rfl⟩
              rw [h'']
              exact hnmem
            · exact Or.inl h''
          · exact Or.inr ⟨hr, fun hy => hnv (List.mem_cons_of_mem _ hy), hfp⟩
        · intro h
          rcases h with h' | ⟨hr, hnv, hfp⟩
          · exact Or.inl ((btInsert_keys n f fps y).mpr (Or.inr h'))
          · by_cases hyn : y = n
            · exact Or.inl ((btInsert_keys n f fps y).mpr (Or.inl hyn))
            · refine Or.inr ⟨hr, ?_, hfp⟩
              intro hy
              rcases List.mem_cons.mp hy with h'' | h''
              · exact hyn h''
              · exact hnv h''

/-- Fold version of the fingerprint-keys invariant. -/
theorem collect_fold_keys (st : VisitorState) (fuel : Nat) :
    ∀ (ds : List String) (acc : List String × List (String × String))
      (y : String),
      y ∈ keysOf ((ds.foldl
          (fun a dep => collect_fingerprints st fuel dep a) acc)).2 ↔
        y ∈ keysOf acc.2 ∨
          (y ∈ (ds.foldl
              (fun a dep => collect_fingerprints st fuel dep a) acc).1 ∧
            y ∉ acc.1 ∧
            (st.type_fingerprint.lookup y).isSome = true) := by
  intro ds
  induction ds with
  | nil =>
    intro acc y
    simp only [List.foldl_nil]
    tauto
  | cons d ds ihds =>
    intro acc y
    have hsub1 : acc.1 ⊆ (collect_fingerprints st fuel d acc).1 := by
      rw [collect_fst]
      exact dfs_subset _ fuel d acc.1
    have hsub2 : (collect_fingerprints st fuel d acc).1 ⊆
        (ds.foldl (fun a dep => collect_fingerprints st fuel dep a)
          (collect_fingerprints st fuel d acc)).1 := by
      rw [collect_fold_fst, collect_fst]
      exact dfs_fold_subset _ fuel ds _
    rw [List.foldl_cons]
    constructor
    · intro h
      rcases (ihds (collect_fingerprints st fuel d acc) y).mp h with
        h' | ⟨hfin, hnmid, hfp⟩
      · rcases (collect_keys st fuel d acc y).mp h' with h'' | ⟨hmid, hnacc, hfp⟩
        · exact Or.inl h''
        · exact Or.inr ⟨hsub2 hmid, hnacc, hfp⟩
      · exact Or.inr ⟨hfin, fun hy => hnmid (hsub1 hy), hfp⟩
    · intro h
      rcases h with h' | ⟨hfin, hnacc, hfp⟩
      · exact (ihds _ y).mpr (Or.inl ((collect_keys st fuel d acc y).mpr (Or.inl h')))
      · by_cases hmid : y ∈ (collect_fingerprints st fuel d acc).1
        · exact (ihds _ y).mpr
            (Or.inl ((collect_keys st fuel d acc y).mpr (Or.inr ⟨hmid, hnacc, hfp⟩)))
        · exact (ihds _ y).mpr (Or.inr ⟨hfin, hmid, hfp⟩)

theorem lookup_mem_values {n : String} {l : List String} :
    ∀ {m : List (String × List String)}, m.lookup n = some l →
      l ∈ m.map Prod.snd := by
  intro m
  induction m with
  | nil => intro h; cases h
  | cons p m ihm =>
    intro h
    obtain ⟨k, v⟩ := p
    simp only [List.lookup] at h
    by_cases hk : (n == k) = true
    · rw [hk] at h
      have hv : v = l := by simpa using h
      rw [List.map_cons, ← hv]
      exact List.mem_cons_self _ _
    · have hfalse : (n == k) = false := by
        simpa using hk
      rw [hfalse] at h
      exact List.mem_cons_of_mem _ (ihm h)

theorem depsOf_mem_targets (m : List (String × List String)) (a d : String)
    (hd : d ∈ depsOf m a) : d ∈ depTargets m := by
  unfold depsOf at hd
  cases hlk : m.lookup a with
  | none =>
    rw [hlk] at hd
    simp at hd
  | some l =>
    rw [hlk] at hd
    simp only [Option.getD_some] at hd
    exact List.mem_flatten.mpr ⟨l, lookup_mem_values hlk, hd⟩

/-- Claim C7 (confirmed): with any fuel at least `closureFuel st` — a
bound depending only on the dependency graph, valid for cyclic graphs —
the closure computation's visited list has no duplicates (each type name
is visited at most once), and the collected map's keys are exactly the
names reachable from the root set along dependency edges that have a
recorded fingerprint; names without a fingerprint are traversed (the
reachability may pass through them) but never collected.  The fuel
parameter only makes the cycle-guarded Rust recursion structurally total:
past the bound the answer no longer depends on it. -/
theorem c7_closure_reachable_fingerprints (st : VisitorState) (fuel : Nat)
    (hfuel : closureFuel st ≤ fuel) :
    ((st.store_types.foldl
        (fun acc type_name => collect_fingerprints st fuel type_name acc)
        ([], [])).1).Nodup ∧
    ∀ y, y ∈ keysOf (construct_finger_print st fuel) ↔
      ((∃ root ∈ st.store_types, Reaches (depsOf st.type_deps) root y) ∧
        (st.type_fingerprint.lookup y).isSome = true) := by
  have HV : ∀ a, ∀ d ∈ depsOf st.type_deps a, d ∈ depTargets st.type_deps :=
    fun a d hd => depsOf_mem_targets _ a d hd
  have hcard : (depTargets st.type_deps).toFinset.card + 2 ≤ fuel := by
    have h1 := List.toFinset_card_le (depTargets st.type_deps)
    unfold closureFuel at hfuel
    omega
  have hproj : (st.store_types.foldl
      (fun acc type_name => collect_fingerprints st fuel type_name acc)
      ([], [])).1 =
      st.store_types.foldl (fun v r => dfs (depsOf st.type_deps) fuel r v) [] :=
    collect_fold_fst st fuel st.store_types ([], [])
  obtain ⟨hsub, hroots, hclosed⟩ :=
    dfs_fold_props (depsOf st.type_deps) (depTargets st.type_deps) HV fuel
      hcard st.store_types []
  have hclosed' : ∀ w ∈ st.store_types.foldl
      (fun v r => dfs (depsOf st.type_deps) fuel r v) [],
      ∀ d ∈ depsOf st.type_deps w,
        d ∈ st.store_types.foldl
          (fun v r => dfs (depsOf st.type_deps) fuel r v) [] := by
    intro w hw
    rcases hclosed w hw with h | h
    · exact absurd h (List.not_mem_nil _)
    · exact h
  constructor
  · rw [hproj]
    have hnod : ∀ (roots : List String) (acc : List String), acc.Nodup →
        (roots.foldl (fun v r => dfs (depsOf st.type_deps) fuel r v) acc).Nodup := by
      intro roots
      induction roots with
      | nil => intro acc h; exact h
      | cons r roots ihr =>
        intro acc h
        exact ihr _ (dfs_nodup _ fuel r acc h)
    exact hnod st.store_types [] List.nodup_nil
  · intro y
    constructor
    · intro hy
      rcases (collect_fold_keys st fuel st.store_types ([], []) y).mp hy with
        h' | ⟨hin, _, hfp⟩
      · simp [keysOf] at h'
      · refine ⟨?_, hfp⟩
        rw [hproj] at hin
        rcases dfs_fold_sound _ fuel st.store_types [] y hin with h'' | h''
        · exact absurd h'' (List.not_mem_nil _)
        · exact h''
    · rintro ⟨⟨root, hr, hreach⟩, hfp⟩
      apply (collect_fold_keys st fuel st.store_types ([], []) y).mpr
      refine Or.inr ⟨?_, by simp, hfp⟩
      rw [hproj]
      have hcomplete : ∀ z, Reaches (depsOf st.type_deps) root z →
          z ∈ st.store_types.foldl
            (fun v r => dfs (depsOf st.type_deps) fuel r v) [] := by
        intro z h
        induction h with
        | refl => exact hroots root hr
        | tail _ hbc ihz => exact hclosed' _ ihz _ hbc
      exact hcomplete y hreach

/-- Witness for C7: the scenario state at exactly the computed fuel
bound, instantiated at the reachable fingerprinted name `Account`. -/
theorem c7_witness :
    ((scenarioState.store_types.foldl
        (fun acc type_name =>
          collect_fingerprints scenarioState (closureFuel scenarioState)
            type_name acc)
        ([], [])).1).Nodup ∧
    ("Account" ∈ keysOf
        (construct_finger_print scenarioState (closureFuel scenarioState)) ↔
      ((∃ root ∈ scenarioState.store_types,
          Reaches (depsOf scenarioState.type_deps) root "Account") ∧
        (scenarioState.type_fingerprint.lookup "Account").isSome = true)) :=
  ⟨(c7_closure_reachable_fingerprints scenarioState (closureFuel scenarioState)
      (le_refl _)).1,
    (c7_closure_reachable_fingerprints scenarioState (closureFuel scenarioState)
      (le_refl _)).2 "Account"⟩

end MigrationCheck
